import Mathlib

/-!
Verification of the classical state-preparation contract of the repository:
the Distribution Validator, the Error-Bound Approximator and the Register
Sizing Rule, together with the `prepare_state` / `prepare_amplitudes`
call shapes and their in-place variants.  Vectors are modelled as lists of
rationals; machine floats are modelled exactly, with the documented
numerical tolerance kept as an explicit constant.
-/

namespace StateLoader

/-- The two vector kinds accepted by the loader: probability distributions
and real amplitude vectors. -/
inductive Kind where
  | probability
  | amplitude
deriving DecidableEq, Repr

/-- The error taxonomy of the loader. -/
inductive Failure where
  | InvalidDistribution
  | InvalidLength
  | InvalidBound
  | BoundExceeded
  | SizeMismatch
deriving DecidableEq, Repr

/-- The numerical tolerance used by the normalization checks (1e-9). -/
def tol : ℚ := 1 / 1000000000

/-- Exact base-2 logarithm with explicit fuel: `log2ExactFuel fuel n`
returns `some k` when `n = 2 ^ k` (and `fuel` is at least `n`), and `none`
when `n` is not a power of two.  The fuel makes the recursion structural. -/
def log2ExactFuel : Nat → Nat → Option Nat
  | 0, _ => none
  | fuel + 1, n =>
    if n = 0 then none
    else if n = 1 then some 0
    else if n % 2 = 0 then (log2ExactFuel fuel (n / 2)).map (· + 1)
    else none

/-- Whether a vector length is a power of two. -/
def isPow2 (n : Nat) : Bool := (log2ExactFuel n n).isSome

/-- Modelled from the spec: the Register Sizing Rule `size_for` is not part
of the repository sources (the notebooks only call the SDK); per the spec a
power-of-two `length` yields `log2 length` two-level units and any other
length fails with `InvalidLength`. -/
def size_for (length : Nat) : Except Failure Nat :=
  match log2ExactFuel length length with
  | some k => .ok k
  | none => .error .InvalidLength

/-- Sum of squares of a vector (the squared L2 norm). -/
def sumSq (v : List ℚ) : ℚ := (v.map fun x => x * x).sum

/-- Squared L2 distance between two vectors of the same length. -/
def l2distSq (v w : List ℚ) : ℚ :=
  ((v.zip w).map fun q => (q.1 - q.2) * (q.1 - q.2)).sum

/-- The normalization invariant of each kind, up to the numerical
tolerance: probability vectors sum to 1, amplitude vectors have unit
(squared) L2 norm.  The tolerance is applied to the squared norm so the
check is exact over ℚ. -/
def normOk (kind : Kind) (w : List ℚ) : Prop :=
  match kind with
  | .probability => |w.sum - 1| ≤ tol
  | .amplitude => |sumSq w - 1| ≤ tol

/-- Modelled from the spec: the Distribution Validator `validate` is not
part of the repository sources (the notebooks only document it); per the
spec it fails with `InvalidDistribution` when a probability entry is
negative or the sum deviates from 1 beyond the tolerance (resp. when the
amplitude norm deviates from 1 beyond the tolerance), and with
`InvalidLength` when the length is not a power of two. -/
def validate (v : List ℚ) (kind : Kind) : Except Failure Unit :=
  match kind with
  | .probability =>
    if v.any fun x => decide (x < 0) then .error .InvalidDistribution
    else if tol < |v.sum - 1| then .error .InvalidDistribution
    else if isPow2 v.length then .ok () else .error .InvalidLength
  | .amplitude =>
    if tol < |sumSq v - 1| then .error .InvalidDistribution
    else if isPow2 v.length then .ok () else .error .InvalidLength

/-- Modelled from the spec: the Error-Bound Approximator `approximate` is
not part of the repository sources.  The spec rejects a negative bound with
`InvalidBound`, requires the input back unchanged for `bound = 0`, and for
`bound > 0` requires only some vector within L2 distance `bound` that
respects the kind's normalization, leaving the strategy an implementation
choice; the model takes the canonical choice of returning the input itself,
which is within every non-negative bound. -/
def approximate (v : List ℚ) (kind : Kind) (bound : ℚ) :
    Except Failure (List ℚ) :=
  match kind with
  | .probability => if bound < 0 then .error .InvalidBound else .ok v
  | .amplitude => if bound < 0 then .error .InvalidBound else .ok v

/-- A quantum register handle: its qubit count together with the classical
description of the state loaded on it. -/
structure Register where
  size : Nat
  amps : List ℚ
deriving DecidableEq, Repr

/-- Allocating a fresh register of `n` qubits, initially in the all-zero
state. -/
def allocate (n : Nat) : Register :=
  { size := n, amps := List.replicate (2 ^ n) 0 }

/-- Modelled from the spec: the allocating call shape `prepare_state`
(validator, then approximator, then sizing rule, then a new register loaded
with the approximant). -/
def prepare_state (p : List ℚ) (bound : ℚ) : Except Failure Register :=
  match validate p .probability with
  | .error e => .error e
  | .ok _ =>
    match approximate p .probability bound with
    | .error e => .error e
    | .ok a =>
      match size_for p.length with
      | .error e => .error e
      | .ok n => .ok { size := n, amps := a }

/-- Modelled from the spec: the allocating call shape `prepare_amplitudes`,
the amplitude-normalized analogue of `prepare_state`. -/
def prepare_amplitudes (a : List ℚ) (bound : ℚ) : Except Failure Register :=
  match validate a .amplitude with
  | .error e => .error e
  | .ok _ =>
    match approximate a .amplitude bound with
    | .error e => .error e
    | .ok w =>
      match size_for a.length with
      | .error e => .error e
      | .ok n => .ok { size := n, amps := w }

/-- Modelled from the spec: the in-place variant `inplace_prepare_state`
takes an already-allocated register and fails with `SizeMismatch` when its
size differs from `size_for (len vector)`; otherwise it works the same as
the allocating variant. -/
def inplace_prepare_state (p : List ℚ) (bound : ℚ) (reg : Register) :
    Except Failure Register :=
  match size_for p.length with
  | .error e => .error e
  | .ok n =>
    if reg.size = n then prepare_state p bound else .error .SizeMismatch

/-- Modelled from the spec: the in-place variant
`inplace_prepare_amplitudes`, the amplitude-normalized analogue of
`inplace_prepare_state`. -/
def inplace_prepare_amplitudes (a : List ℚ) (bound : ℚ) (reg : Register) :
    Except Failure Register :=
  match size_for a.length with
  | .error e => .error e
  | .ok n =>
    if reg.size = n then prepare_amplitudes a bound else .error .SizeMismatch

/-- The concrete PMF of the state-preparation notebook, Example 1. -/
def pmfExample : List ℚ :=
  [5/100, 11/100, 13/100, 23/100, 27/100, 12/100, 3/100, 6/100]

/-- The normalized `linspace(0, 1, 8)` probability vector of the amplitude
estimation notebook; note its first entry is 0. -/
def linProbExample : List ℚ :=
  [0, 1/28, 2/28, 3/28, 4/28, 5/28, 6/28, 7/28]

/-- A small unit-norm amplitude vector. -/
def ampExample : List ℚ := [3/5, 4/5]

/-- Another small unit-norm amplitude vector. -/
def ampExampleNeg : List ℚ := [3/5, -4/5]

/-- A small probability vector of length 2. -/
def probExample2 : List ℚ := [1/4, 3/4]

/-- The uniform probability vector of length 4. -/
def probExample4 : List ℚ := [1/4, 1/4, 1/4, 1/4]

/-- A trivial one-point probability vector. -/
def probPoint : List ℚ := [1]

theorem log2ExactFuel_pow :
    ∀ (fuel k : Nat), 2 ^ k ≤ fuel → log2ExactFuel fuel (2 ^ k) = some k := by
  intro fuel
  induction fuel with
  | zero =>
    intro k h
    exact absurd (Nat.lt_of_lt_of_le (Nat.pos_pow_of_pos k (by omega)) h)
      (by omega)
  | succ f ih =>
    intro k h
    cases k with
    | zero => simp [log2ExactFuel]
    | succ j =>
      have hone : 1 ≤ 2 ^ j := Nat.one_le_two_pow
      have h2 : 2 ^ (j + 1) ≠ 0 := by
        have := Nat.one_le_two_pow (n := j + 1); omega
      have h1 : 2 ^ (j + 1) ≠ 1 := by
        rw [Nat.pow_succ]; omega
      have hmod : 2 ^ (j + 1) % 2 = 0 := by
        rw [Nat.pow_succ]; exact Nat.mul_mod_left _ _
      have hdiv : 2 ^ (j + 1) / 2 = 2 ^ j := by
        rw [Nat.pow_succ]; exact Nat.mul_div_cancel _ (by omega)
      have hle : 2 ^ j ≤ f := by
        rw [Nat.pow_succ] at h; omega
      simp [log2ExactFuel, h2, h1, hmod, hdiv, ih j hle]

theorem log2ExactFuel_sound :
    ∀ (fuel n k : Nat), log2ExactFuel fuel n = some k → n = 2 ^ k := by
  intro fuel
  induction fuel with
  | zero => intro n k h; simp [log2ExactFuel] at h
  | succ f ih =>
    intro n k h
    by_cases h0 : n = 0
    · simp [log2ExactFuel, h0] at h
    by_cases h1 : n = 1
    · simp [log2ExactFuel, h0, h1] at h
      subst h1
      simp [← h]
    by_cases h2 : n % 2 = 0
    · simp only [log2ExactFuel, h0, h1, h2, if_false, if_true,
        Option.map_eq_some', if_neg, if_pos] at h
      obtain ⟨j, hj, hk⟩ := h
      have hrec := ih (n / 2) j hj
      subst hk
      rw [Nat.pow_succ]
      omega
    · simp [log2ExactFuel, h0, h1, h2] at h

theorem size_for_pow (k : Nat) : size_for (2 ^ k) = .ok k := by
  unfold size_for
  rw [log2ExactFuel_pow (2 ^ k) k le_rfl]

theorem size_for_ok_pow {n k : Nat} (h : size_for n = .ok k) : n = 2 ^ k := by
  unfold size_for at h
  cases hl : log2ExactFuel n n with
  | none => rw [hl] at h; cases h
  | some j =>
    rw [hl] at h
    cases h
    exact log2ExactFuel_sound n n k hl

theorem size_for_error_kind {n : Nat} {e : Failure}
    (h : size_for n = .error e) : e = .InvalidLength := by
  unfold size_for at h
  cases hl : log2ExactFuel n n with
  | none => rw [hl] at h; cases h; rfl
  | some j => rw [hl] at h; cases h

theorem isPow2_iff (n : Nat) : isPow2 n = true ↔ ∃ k, n = 2 ^ k := by
  unfold isPow2
  constructor
  · intro h
    obtain ⟨k, hk⟩ := Option.isSome_iff_exists.mp h
    exact ⟨k, log2ExactFuel_sound n n k hk⟩
  · rintro ⟨k, rfl⟩
    rw [log2ExactFuel_pow (2 ^ k) k le_rfl]
    rfl

theorem isPow2_size_for {n : Nat} (h : isPow2 n = true) :
    ∃ k, size_for n = .ok k ∧ n = 2 ^ k := by
  obtain ⟨k, rfl⟩ := (isPow2_iff n).mp h
  exact ⟨k, size_for_pow k, rfl⟩

theorem any_neg_eq_false {p : List ℚ} (hnn : ∀ x ∈ p, 0 ≤ x) :
    (p.any fun x => decide (x < 0)) = false := by
  simp only [List.any_eq_false, decide_eq_true_eq, not_lt]
  exact hnn

theorem validate_ok_pow2 {v : List ℚ} {kind : Kind}
    (h : validate v kind = .ok ()) : isPow2 v.length = true := by
  cases kind with
  | probability =>
    simp only [validate] at h
    split_ifs at h with h1 h2 h3
    exact h3
  | amplitude =>
    simp only [validate] at h
    split_ifs at h with h1 h2
    exact h2

theorem validate_ok_normOk {v : List ℚ} {kind : Kind}
    (h : validate v kind = .ok ()) : normOk kind v := by
  cases kind with
  | probability =>
    simp only [validate] at h
    split_ifs at h with h1 h2 h3
    exact not_lt.mp h2
  | amplitude =>
    simp only [validate] at h
    split_ifs at h with h1 h2
    exact not_lt.mp h1

theorem validate_error_kind {v : List ℚ} {kind : Kind} {e : Failure}
    (h : validate v kind = .error e) :
    e = .InvalidDistribution ∨ e = .InvalidLength := by
  unfold validate at h
  cases kind with
  | probability =>
    split_ifs at h <;> cases h <;> first | exact Or.inl rfl | exact Or.inr rfl
  | amplitude =>
    split_ifs at h <;> cases h <;> first | exact Or.inl rfl | exact Or.inr rfl

theorem approximate_nonneg (v : List ℚ) (kind : Kind) {b : ℚ} (h : 0 ≤ b) :
    approximate v kind b = .ok v := by
  cases kind <;> simp [approximate, not_lt.mpr h]

theorem approximate_neg (v : List ℚ) (kind : Kind) {b : ℚ} (h : b < 0) :
    approximate v kind b = .error .InvalidBound := by
  cases kind <;> simp [approximate, h]

theorem approximate_error_kind {v : List ℚ} {kind : Kind} {b : ℚ} {e : Failure}
    (h : approximate v kind b = .error e) : e = .InvalidBound := by
  unfold approximate at h
  cases kind <;> split_ifs at h <;> cases h <;> rfl

theorem l2distSq_self (v : List ℚ) : l2distSq v v = 0 := by
  induction v with
  | nil => rfl
  | cons a t ih =>
    unfold l2distSq at ih ⊢
    simp only [List.zip_cons_cons, List.map_cons, List.sum_cons, sub_self,
      mul_zero, zero_add]
    exact ih

theorem prepare_state_ne_smm (p : List ℚ) (b : ℚ) :
    prepare_state p b ≠ .error .SizeMismatch := by
  unfold prepare_state
  intro h
  split at h
  · rename_i e he
    rcases validate_error_kind he with rfl | rfl <;> cases h
  · split at h
    · rename_i e he
      have := approximate_error_kind he
      subst this
      cases h
    · split at h
      · rename_i e he
        have := size_for_error_kind he
        subst this
        cases h
      · cases h

theorem inplace_state_run {p : List ℚ} {b : ℚ} {reg : Register} {n : Nat}
    (hs : size_for p.length = .ok n) :
    inplace_prepare_state p b reg =
      if reg.size = n then prepare_state p b else .error .SizeMismatch := by
  unfold inplace_prepare_state
  simp only [hs]

theorem inplace_state_len_error {p : List ℚ} {b : ℚ} {reg : Register}
    {e : Failure} (hs : size_for p.length = .error e) :
    inplace_prepare_state p b reg = .error e := by
  unfold inplace_prepare_state
  simp only [hs]

theorem inplace_amps_run {a : List ℚ} {b : ℚ} {reg : Register} {n : Nat}
    (hs : size_for a.length = .ok n) :
    inplace_prepare_amplitudes a b reg =
      if reg.size = n then prepare_amplitudes a b else .error .SizeMismatch := by
  unfold inplace_prepare_amplitudes
  simp only [hs]

theorem inplace_amps_len_error {a : List ℚ} {b : ℚ} {reg : Register}
    {e : Failure} (hs : size_for a.length = .error e) :
    inplace_prepare_amplitudes a b reg = .error e := by
  unfold inplace_prepare_amplitudes
  simp only [hs]

theorem prepare_amplitudes_ne_smm (a : List ℚ) (b : ℚ) :
    prepare_amplitudes a b ≠ .error .SizeMismatch := by
  unfold prepare_amplitudes
  intro h
  split at h
  · rename_i e he
    rcases validate_error_kind he with rfl | rfl <;> cases h
  · split at h
    · rename_i e he
      have := approximate_error_kind he
      subst this
      cases h
    · split at h
      · rename_i e he
        have := size_for_error_kind he
        subst this
        cases h
      · cases h

/-- C1: for every valid vector of either kind and every bound > 0, the
approximant returned by `approximate` lies within L2 distance `bound` of
the input vector. -/
theorem approx_l2_within_bound (v : List ℚ) (kind : Kind) (bound : ℚ)
    (hb : 0 < bound) (hv : validate v kind = .ok ()) :
    ∃ w, approximate v kind bound = .ok w ∧
      Real.sqrt ((l2distSq w v : ℝ)) ≤ (bound : ℝ) := by
  refine ⟨v, approximate_nonneg v kind hb.le, ?_⟩
  rw [l2distSq_self]
  simp only [Rat.cast_zero, Real.sqrt_zero]
  exact_mod_cast hb.le

/-- Witness for C1 at the notebook's PMF with bound 0.01. -/
theorem approx_l2_within_bound_check :
    0 < (1/100 : ℚ) ∧
    ∃ w, approximate pmfExample .probability (1/100) = .ok w ∧
      Real.sqrt ((l2distSq w pmfExample : ℝ)) ≤ ((1/100 : ℚ) : ℝ) :=
  ⟨by norm_num,
   approx_l2_within_bound pmfExample .probability (1/100) (by norm_num)
     (by norm_num [validate, pmfExample, tol, isPow2, log2ExactFuel, abs_le])⟩

/-- C2: for every valid vector of either kind, `approximate` with bound 0
returns the input vector unchanged. -/
theorem approx_zero_bound_exact (v : List ℚ) (kind : Kind)
    (hv : validate v kind = .ok ()) : approximate v kind 0 = .ok v :=
  approximate_nonneg v kind le_rfl

/-- Witness for C2 at a unit-norm amplitude vector. -/
theorem approx_zero_bound_exact_check :
    approximate ampExample .amplitude 0 = .ok ampExample :=
  approx_zero_bound_exact ampExample .amplitude
    (by norm_num [validate, ampExample, tol, isPow2, log2ExactFuel, sumSq,
      abs_le])

/-- C3: for every valid vector of either kind and every admissible
(non-negative) bound, the approximant satisfies the normalization
invariant of its kind within the numerical tolerance. -/
theorem approx_preserves_normalization (v : List ℚ) (kind : Kind) (b : ℚ)
    (hb : 0 ≤ b) (hv : validate v kind = .ok ()) :
    ∃ w, approximate v kind b = .ok w ∧ normOk kind w :=
  ⟨v, approximate_nonneg v kind hb, validate_ok_normOk hv⟩

/-- Witness for C3 at an amplitude vector with bound 0.2. -/
theorem approx_preserves_normalization_check :
    ∃ w, approximate ampExampleNeg .amplitude (2/10) = .ok w ∧
      normOk .amplitude w :=
  approx_preserves_normalization ampExampleNeg .amplitude (2/10) (by norm_num)
    (by norm_num [validate, ampExampleNeg, tol, isPow2, log2ExactFuel, sumSq,
      abs_le])

/-- C4: for every vector of power-of-two length, `validate` for the
probability kind succeeds exactly when all entries are non-negative and
the sum is within tolerance of 1, and fails with `InvalidDistribution`
otherwise. -/
theorem validate_probability_spec (p : List ℚ) (hp : isPow2 p.length = true) :
    (validate p .probability = .ok () ↔
      (∀ x ∈ p, 0 ≤ x) ∧ |p.sum - 1| ≤ tol) ∧
    (¬ ((∀ x ∈ p, 0 ≤ x) ∧ |p.sum - 1| ≤ tol) →
      validate p .probability = .error .InvalidDistribution) := by
  have hnn_of : ∀ h1 : ¬ (p.any fun x => decide (x < 0)) = true,
      ∀ x ∈ p, 0 ≤ x := by
    intro h1 x hx
    by_contra hneg
    exact h1 (List.any_eq_true.mpr ⟨x, hx, decide_eq_true (not_le.mp hneg)⟩)
  constructor
  · constructor
    · intro h
      refine ⟨?_, validate_ok_normOk h⟩
      simp only [validate] at h
      split_ifs at h with h1 h2 h3
      exact hnn_of h1
    · rintro ⟨hnn, hsum⟩
      simp only [validate]
      rw [if_neg (show ¬ (p.any fun x => decide (x < 0)) = true by
            rw [any_neg_eq_false hnn]; simp),
        if_neg (not_lt.mpr hsum), if_pos hp]
  · intro hbad
    simp only [validate]
    by_cases h1 : (p.any fun x => decide (x < 0)) = true
    · rw [if_pos h1]
    · rw [if_neg h1]
      by_cases h2 : tol < |p.sum - 1|
      · rw [if_pos h2]
      · exact absurd ⟨hnn_of h1, not_lt.mp h2⟩ hbad

/-- Witness for C4 at a valid length-2 probability vector. -/
theorem validate_probability_spec_check :
    validate probExample2 .probability = .ok () :=
  (validate_probability_spec probExample2 rfl).1.mpr
    ⟨by norm_num [probExample2], by norm_num [probExample2, tol, abs_le]⟩

/-- C5: `size_for` returns the base-2 logarithm on power-of-two lengths
(in particular 3 on length 8) and fails with `InvalidLength` on all other
lengths (in particular on length 5). -/
theorem size_for_spec (n : Nat) :
    ((∃ k, n = 2 ^ k) → size_for n = .ok (Nat.log2 n)) ∧
    ((∀ k, n ≠ 2 ^ k) → size_for n = .error .InvalidLength) ∧
    size_for 8 = .ok 3 ∧ size_for 5 = .error .InvalidLength := by
  refine ⟨?_, ?_, rfl, rfl⟩
  · rintro ⟨k, rfl⟩
    rw [size_for_pow k]
    congr 1
    rw [Nat.log2_eq_log_two, Nat.log_pow Nat.one_lt_two]
  · intro hk
    cases hs : size_for n with
    | ok m => exact absurd (size_for_ok_pow hs) (hk m)
    | error e => rw [size_for_error_kind hs]

/-- Witness for C5 at lengths 8 and 5. -/
theorem size_for_spec_check :
    size_for 8 = .ok (Nat.log2 8) ∧ size_for 5 = .error .InvalidLength :=
  ⟨(size_for_spec 8).1 ⟨3, rfl⟩,
   (size_for_spec 5).2.1 (by
     intro k hk
     have hk3 : k < 3 := by
       by_contra hge
       push_neg at hge
       have h8 : (8 : Nat) ≤ 2 ^ k := by
         calc (8 : Nat) = 2 ^ 3 := by norm_num
         _ ≤ 2 ^ k := Nat.pow_le_pow_right (by omega) hge
       rw [← hk] at h8
       omega
     interval_cases k <;> norm_num at hk)⟩

/-- C6: the in-place variants fail with `SizeMismatch` exactly when the
supplied register's size differs from `size_for (len vector)`; with a
matching size they never produce that failure. -/
theorem inplace_size_mismatch_spec (v : List ℚ) (b : ℚ) (reg : Register) :
    (inplace_prepare_state v b reg = .error .SizeMismatch ↔
      ∃ n, size_for v.length = .ok n ∧ reg.size ≠ n) ∧
    (inplace_prepare_amplitudes v b reg = .error .SizeMismatch ↔
      ∃ n, size_for v.length = .ok n ∧ reg.size ≠ n) := by
  constructor
  · cases hs : size_for v.length with
    | error e =>
      rw [inplace_state_len_error hs]
      have he := size_for_error_kind hs
      subst he
      constructor
      · intro h; cases h
      · rintro ⟨n, hn, _⟩
        cases hn
    | ok n =>
      rw [inplace_state_run hs]
      by_cases hr : reg.size = n
      · rw [if_pos hr]
        constructor
        · intro h; exact absurd h (prepare_state_ne_smm v b)
        · rintro ⟨m, hm, hne⟩
          cases hm
          exact absurd hr hne
      · rw [if_neg hr]
        exact ⟨fun _ => ⟨n, rfl, hr⟩, fun _ => rfl⟩
  · cases hs : size_for v.length with
    | error e =>
      rw [inplace_amps_len_error hs]
      have he := size_for_error_kind hs
      subst he
      constructor
      · intro h; cases h
      · rintro ⟨n, hn, _⟩
        cases hn
    | ok n =>
      rw [inplace_amps_run hs]
      by_cases hr : reg.size = n
      · rw [if_pos hr]
        constructor
        · intro h; exact absurd h (prepare_amplitudes_ne_smm v b)
        · rintro ⟨m, hm, hne⟩
          cases hm
          exact absurd hr hne
      · rw [if_neg hr]
        exact ⟨fun _ => ⟨n, rfl, hr⟩, fun _ => rfl⟩

/-- Witness for C6: a register of the wrong size is rejected. -/
theorem inplace_size_mismatch_spec_check :
    inplace_prepare_state probPoint 0 { size := 2, amps := [] } =
      .error .SizeMismatch :=
  (inplace_size_mismatch_spec probPoint 0 { size := 2, amps := [] }).1.mpr
    ⟨0, rfl, by norm_num⟩

/-- C7: `approximate` rejects every negative bound with `InvalidBound`
(in particular bound -0.1), and under the non-negative-bound precondition
the `BoundExceeded` failure is unreachable. -/
theorem approx_negative_bound_spec (v : List ℚ) (kind : Kind) :
    approximate v kind (-(1/10)) = .error .InvalidBound ∧
    (∀ b : ℚ, b < 0 → approximate v kind b = .error .InvalidBound) ∧
    (∀ b : ℚ, 0 ≤ b → approximate v kind b ≠ .error .BoundExceeded) := by
  refine ⟨approximate_neg v kind (by norm_num),
    fun b hb => approximate_neg v kind hb, fun b hb => ?_⟩
  rw [approximate_nonneg v kind hb]
  intro h
  cases h

/-- Witness for C7 at a one-point vector. -/
theorem approx_negative_bound_spec_check :
    approximate probPoint .probability (-(1/10)) = .error .InvalidBound ∧
    approximate probPoint .probability (-(1/2)) = .error .InvalidBound ∧
    approximate probPoint .probability 0 ≠ .error .BoundExceeded :=
  ⟨(approx_negative_bound_spec probPoint .probability).1,
   (approx_negative_bound_spec probPoint .probability).2.1 (-(1/2))
     (by norm_num),
   (approx_negative_bound_spec probPoint .probability).2.2 0 le_rfl⟩

/-- C8: `validate`, `approximate` and `size_for` are deterministic pure
functions: identical inputs produce identical results. -/
theorem loader_deterministic (v₁ v₂ : List ℚ) (k₁ k₂ : Kind) (b₁ b₂ : ℚ)
    (n₁ n₂ : Nat) (hv : v₁ = v₂) (hk : k₁ = k₂) (hb : b₁ = b₂)
    (hn : n₁ = n₂) :
    validate v₁ k₁ = validate v₂ k₂ ∧
    approximate v₁ k₁ b₁ = approximate v₂ k₂ b₂ ∧
    size_for n₁ = size_for n₂ := by
  subst hv; subst hk; subst hb; subst hn
  exact ⟨rfl, rfl, rfl⟩

/-- Witness for C8 at concrete inputs. -/
theorem loader_deterministic_check :
    validate probExample4 .probability = validate probExample4 .probability ∧
    approximate probExample4 .probability (1/2) =
      approximate probExample4 .probability (1/2) ∧
    size_for 4 = size_for 4 :=
  loader_deterministic probExample4 probExample4 .probability .probability
    (1/2) (1/2) 4 4 rfl rfl rfl rfl

/-- C9: on valid vectors the allocating variants agree with allocating a
fresh register of size `size_for (len vector)` and then running the
in-place variants on it. -/
theorem prepare_refines_inplace (v : List ℚ) (b : ℚ) :
    (validate v .probability = .ok () →
      prepare_state v b =
        (size_for v.length).bind
          fun n => inplace_prepare_state v b (allocate n)) ∧
    (validate v .amplitude = .ok () →
      prepare_amplitudes v b =
        (size_for v.length).bind
          fun n => inplace_prepare_amplitudes v b (allocate n)) := by
  constructor <;> intro hv
  · obtain ⟨n, hs, _⟩ := isPow2_size_for (validate_ok_pow2 hv)
    rw [hs]
    show prepare_state v b = inplace_prepare_state v b (allocate n)
    rw [inplace_state_run hs, if_pos (show (allocate n).size = n from rfl)]
  · obtain ⟨n, hs, _⟩ := isPow2_size_for (validate_ok_pow2 hv)
    rw [hs]
    show prepare_amplitudes v b = inplace_prepare_amplitudes v b (allocate n)
    rw [inplace_amps_run hs, if_pos (show (allocate n).size = n from rfl)]

/-- Witness for C9 at a probability vector and an amplitude vector. -/
theorem prepare_refines_inplace_check :
    prepare_state probExample4 (1/100) =
      (size_for probExample4.length).bind
        (fun n => inplace_prepare_state probExample4 (1/100) (allocate n)) ∧
    prepare_amplitudes ampExample (1/100) =
      (size_for ampExample.length).bind
        (fun n => inplace_prepare_amplitudes ampExample (1/100) (allocate n)) :=
  ⟨(prepare_refines_inplace probExample4 (1/100)).1
     (by norm_num [validate, probExample4, tol, isPow2, log2ExactFuel, abs_le]),
   (prepare_refines_inplace ampExample (1/100)).2
     (by norm_num [validate, ampExample, tol, isPow2, log2ExactFuel, sumSq,
       abs_le])⟩

/-- C10: probability vectors containing zero entries are accepted:
`validate` succeeds and `approximate` with bound 0 returns them unchanged,
zero entries included. -/
theorem zero_entries_accepted (p : List ℚ) (hnn : ∀ x ∈ p, 0 ≤ x)
    (hsum : p.sum = 1) (hlen : isPow2 p.length = true) (hz : (0:ℚ) ∈ p) :
    validate p .probability = .ok () ∧
    approximate p .probability 0 = .ok p := by
  constructor
  · simp only [validate]
    rw [if_neg (show ¬ (p.any fun x => decide (x < 0)) = true by
          rw [any_neg_eq_false hnn]; simp),
      if_neg (show ¬ tol < |p.sum - 1| by rw [hsum]; norm_num [tol]),
      if_pos hlen]
  · exact approximate_nonneg p .probability le_rfl

/-- Witness for C10 at the normalized linspace vector, whose first entry
is zero. -/
theorem zero_entries_accepted_check :
    validate linProbExample .probability = .ok () ∧
    approximate linProbExample .probability 0 = .ok linProbExample :=
  zero_entries_accepted linProbExample
    (by norm_num [linProbExample])
    (by norm_num [linProbExample])
    rfl
    (by norm_num [linProbExample])

end StateLoader
